import Mathlib

/-!
Verification of the polypolypoly market-making core against its specification.

The Python sources under `model_tuning` are shallowly embedded here:

* floats are modelled by exact arithmetic in a linear ordered field
  (instantiated at `ℚ` for the simulators and at `ℝ` where the real
  exponential matters); Python `round` is modelled by `pyRound0` /
  `pyRound2` (round-half-to-even, as Python does);
* fallible code (`Oracle.distance_pct` divides by the threshold and
  raises `ZeroDivisionError` on a zero threshold) returns `Option`;
* Python dicts keyed by `str(price)` are modelled as insertion-ordered
  association lists keyed by the exact price (`str` is injective on
  floats, so the key change is faithful);
* `math.exp` enters the quoter as an explicit function parameter `E`;
  theorems that depend on its analytic properties instantiate
  `E := Real.exp`.
-/

/-- Trade side of a market fill (`Literal["buy", "sell"]` in
`simulation/models.py`). -/
inductive Side where
  | buy
  | sell
deriving DecidableEq

/-- Binary-market outcome token (`Literal["up", "down"]`). -/
inductive Outcome where
  | up
  | down
deriving DecidableEq

/-- Which side carries excess inventory
(`Literal["up", "down", "balanced"]` in `EnhancedPositionState`). -/
inductive ExcessSide where
  | up
  | down
  | balanced
deriving DecidableEq

/-- Position in UP and DOWN tokens (`core/models.py`, class `Inventory`). -/
structure Inventory (α : Type) where
  up_qty : α
  up_avg : α
  down_qty : α
  down_avg : α
deriving DecidableEq

/-- Instantaneous market quote state (`core/models.py`, class `Market`). -/
structure Market (α : Type) where
  best_ask_up : α
  best_bid_up : α
  best_ask_down : α
  best_bid_down : α
deriving DecidableEq

/-- External price oracle reading (`core/models.py`, class `Oracle`). -/
structure Oracle (α : Type) where
  current_price : α
  threshold : α
deriving DecidableEq

variable {α : Type} [LinearOrderedField α]

/-- Total cost per pair, `Inventory.combined_avg`. -/
def Inventory.combined_avg (inv : Inventory α) : α :=
  inv.up_avg + inv.down_avg

/-- Normalized inventory imbalance, `Inventory.imbalance`: the source
returns `0.0` when the total is zero, else `(up - down) / total`. -/
def Inventory.imbalance (inv : Inventory α) : α :=
  if inv.up_qty + inv.down_qty = 0 then 0
  else (inv.up_qty - inv.down_qty) / (inv.up_qty + inv.down_qty)

/-- Number of redeemable pairs, `Inventory.pairs`. -/
def Inventory.pairs (inv : Inventory α) : α :=
  min inv.up_qty inv.down_qty

/-- Profit per pair if redeemed, `Inventory.potential_profit`. -/
def Inventory.potential_profit (inv : Inventory α) : α :=
  1 - inv.combined_avg

/-- Pure fill application, `Inventory.update_position`: returns a new
inventory with the weighted average recomputed (guarded by
`new_qty > 0`); the `"up"` string compare becomes a match on
`Outcome`, whose `else` branch is `down`, as in the source. -/
def Inventory.update_position (inv : Inventory α) (side : Outcome)
    (qty price : α) : Inventory α :=
  match side with
  | Outcome.up =>
    let new_qty := inv.up_qty + qty
    let new_avg :=
      if 0 < new_qty then (inv.up_qty * inv.up_avg + qty * price) / new_qty
      else inv.up_avg
    { up_qty := new_qty, up_avg := new_avg
    , down_qty := inv.down_qty, down_avg := inv.down_avg }
  | Outcome.down =>
    let new_qty := inv.down_qty + qty
    let new_avg :=
      if 0 < new_qty then (inv.down_qty * inv.down_avg + qty * price) / new_qty
      else inv.down_avg
    { up_qty := inv.up_qty, up_avg := inv.up_avg
    , down_qty := new_qty, down_avg := new_avg }

/-- Oracle distance, `Oracle.distance_pct = (current - threshold) / threshold`.
The Python expression raises `ZeroDivisionError` when `threshold == 0`
(the source has no guard), so the embedding returns `Option`: `none`
models the raised exception. -/
def Oracle.distance_pct (o : Oracle α) : Option α :=
  if o.threshold = 0 then none
  else some ((o.current_price - o.threshold) / o.threshold)

/-- Python `round(x)` (no digits): round half to even, `core` semantics of
`round(round(value / TICK_SIZE) * TICK_SIZE, 2)` and of the quoter's
`round(raw_size)`. -/
def pyRound0 [FloorRing α] (x : α) : ℤ :=
  let f := ⌊x⌋
  if x - f < 1 / 2 then f
  else if (1 : α) / 2 < x - f then f + 1
  else if f % 2 = 0 then f else f + 1

/-- Python `round(x, 2)`: round half to even at two decimal digits. -/
def pyRound2 [FloorRing α] (x : α) : α :=
  (pyRound0 (x * 100) : α) / 100

/-- Polymarket tick size, `core/utils.py` constant `TICK_SIZE = 0.01`. -/
def TICK_SIZE : α := 1 / 100

/-- Tick snapping, `core/utils.py` function
`snap_to_tick(value) = round(round(value / TICK_SIZE) * TICK_SIZE, 2)`. -/
def snap_to_tick [FloorRing α] (value : α) : α :=
  pyRound2 ((pyRound0 (value / TICK_SIZE) : α) * TICK_SIZE)

/-- Quoter configuration (`core/quoter.py`, class `QuoterParams`). -/
structure QuoterParams (α : Type) where
  oracle_sensitivity : α
  base_spread : α
  p_informed_base : α
  time_decay_minutes : α
  gamma_inv : α
  lambda_size : α
  base_size : α
  edge_threshold : α
  min_offset : α
deriving DecidableEq

/-- The `QuoterParams` defaults of the source, at `ℚ`:
`(5.0, 0.02, 0.2, 5.0, 0.5, 1.0, 50.0, 0.01, 0.01)`. -/
def defaultParams : QuoterParams ℚ :=
  { oracle_sensitivity := 5, base_spread := 1 / 50, p_informed_base := 1 / 5
  , time_decay_minutes := 5, gamma_inv := 1 / 2, lambda_size := 1
  , base_size := 50, edge_threshold := 1 / 100, min_offset := 1 / 100 }

/-- Quoter output with the full diagnostic trail (`core/models.py`,
class `QuoteResult`).  The skip-reason strings
`f"edge {edge:.3f} < threshold {threshold}"` are modelled by the data
they format: the pair `(edge, threshold)`. -/
structure QuoteResult (α : Type) where
  bid_up : Option α
  size_up : α
  bid_down : Option α
  size_down : α
  oracle_adj : α
  raw_up_offset : α
  raw_down_offset : α
  p_informed : α
  base_spread : α
  inventory_q : α
  spread_mult_up : α
  spread_mult_down : α
  final_up_offset : α
  final_down_offset : α
  raw_size_up : α
  raw_size_down : α
  edge_up : α
  edge_down : α
  skip_reason_up : Option (α × α)
  skip_reason_down : Option (α × α)
deriving DecidableEq

/-- Layer 2, `InventoryMMQuoter.calculate_adverse_selection`:
`p_informed = min(0.8, p_informed_base * exp(-minutes / decay))`,
`spread = base_spread * (1 + 3 * p_informed)`.  `E` stands for
`math.exp`. -/
def calculate_adverse_selection (E : α → α) (p : QuoterParams α)
    (minutes_to_resolution : α) : α × α :=
  let p_informed0 :=
    p.p_informed_base * E (-minutes_to_resolution / p.time_decay_minutes)
  let p_informed := min (8 / 10) p_informed0
  (p_informed, p.base_spread * (1 + 3 * p_informed))

/-- Layer 1, `InventoryMMQuoter.calculate_oracle_adjusted_offsets`:
offsets from the oracle distance, floored at `min_offset`.  Propagates
the `Option` of `Oracle.distance_pct`. -/
def calculate_oracle_adjusted_offsets (p : QuoterParams α) (oracle : Oracle α)
    (base_offset : α) : Option (α × α × α) :=
  match oracle.distance_pct with
  | none => none
  | some dp =>
    let oracle_adj := dp * p.oracle_sensitivity
    some (oracle_adj, max p.min_offset (base_offset - oracle_adj),
          max p.min_offset (base_offset + oracle_adj))

/-- Layer 3, `InventoryMMQuoter.calculate_inventory_skew`:
`(spread_mult_up, spread_mult_down, size_up, size_down)`. -/
def calculate_inventory_skew (E : α → α) (p : QuoterParams α)
    (inventory : Inventory α) : α × α × α × α :=
  let q := inventory.imbalance
  (1 + p.gamma_inv * q, 1 - p.gamma_inv * q,
   p.base_size * E (-p.lambda_size * q), p.base_size * E (p.lambda_size * q))

/-- Layer 4, `InventoryMMQuoter.check_edge`:
`(should_quote, edge, skip_reason)`. -/
def check_edge (p : QuoterParams α) (bid market_ask : α) :
    Bool × α × Option (α × α) :=
  let edge := market_ask - bid
  if edge < p.edge_threshold then (false, edge, some (edge, p.edge_threshold))
  else (true, edge, none)

/-- The 4-layer quoting function, `InventoryMMQuoter.quote`.  Returns
`none` exactly when the source raises (zero oracle threshold inside
`distance_pct`). -/
def quote [FloorRing α] (E : α → α) (p : QuoterParams α)
    (inventory : Inventory α) (market : Market α) (oracle : Oracle α)
    (minutes_to_resolution : α) : Option (QuoteResult α) :=
  let adv := calculate_adverse_selection E p minutes_to_resolution
  match calculate_oracle_adjusted_offsets p oracle adv.2 with
  | none => none
  | some ofs =>
    let skew := calculate_inventory_skew E p inventory
    let final_up_offset := ofs.2.1 * skew.1
    let final_down_offset := ofs.2.2 * skew.2.1
    let bid_up := snap_to_tick (market.best_bid_up - final_up_offset)
    let bid_down := snap_to_tick (market.best_bid_down - final_down_offset)
    let ceu := check_edge p bid_up market.best_ask_up
    let ced := check_edge p bid_down market.best_ask_down
    some
    { bid_up := if ceu.1 then some bid_up else none
    , size_up := if ceu.1 then (pyRound0 skew.2.2.1 : α) else 0
    , bid_down := if ced.1 then some bid_down else none
    , size_down := if ced.1 then (pyRound0 skew.2.2.2 : α) else 0
    , oracle_adj := ofs.1
    , raw_up_offset := ofs.2.1
    , raw_down_offset := ofs.2.2
    , p_informed := adv.1
    , base_spread := adv.2
    , inventory_q := inventory.imbalance
    , spread_mult_up := skew.1
    , spread_mult_down := skew.2.1
    , final_up_offset := final_up_offset
    , final_down_offset := final_down_offset
    , raw_size_up := skew.2.2.1
    , raw_size_down := skew.2.2.2
    , edge_up := ceu.2.1
    , edge_down := ced.2.1
    , skip_reason_up := ceu.2.2
    , skip_reason_down := ced.2.2 }

/-- Single order book level (`simulation/models.py`, `OrderbookLevel`). -/
structure OrderbookLevel where
  price : ℚ
  size : ℚ
deriving DecidableEq

/-- Full order book for one outcome (`simulation/models.py`, `Orderbook`). -/
structure Orderbook where
  asks : List OrderbookLevel
  bids : List OrderbookLevel
deriving DecidableEq

/-- Best (lowest) ask price, `Orderbook.best_ask`: `None` on an empty book. -/
def Orderbook.best_ask (b : Orderbook) : Option ℚ :=
  (b.asks.map (fun l => l.price)).min?

/-- Best (highest) bid price, `Orderbook.best_bid`: `None` on an empty book. -/
def Orderbook.best_bid (b : Orderbook) : Option ℚ :=
  (b.bids.map (fun l => l.price)).max?

/-- Combined UP/DOWN book at a point in time
(`simulation/models.py`, `OrderbookSnapshot`). -/
structure OrderbookSnapshot where
  up : Orderbook
  down : Orderbook
  timestamp : ℚ
deriving DecidableEq

/-- A real market trade execution (`simulation/models.py`, `RealFill`). -/
structure RealFill where
  price : ℚ
  size : ℚ
  side : Side
  timestamp : ℚ
  outcome : Outcome
deriving DecidableEq

/-- Oracle price at a point in time (`simulation/models.py`, `OracleSnapshot`). -/
structure OracleSnapshot where
  price : ℚ
  threshold : ℚ
  timestamp : ℚ
deriving DecidableEq

/-- A fill that matched our quote (`simulation/models.py`, `MatchedFill`). -/
structure MatchedFill where
  timestamp : ℚ
  outcome : Outcome
  price : ℚ
  size : ℚ
  original_fill : RealFill
deriving DecidableEq

/-- Position state with full PnL tracking
(`simulation/models.py`, `EnhancedPositionState`). -/
structure EnhancedPositionState where
  timestamp : ℚ
  up_qty : ℚ
  down_qty : ℚ
  up_avg : ℚ
  down_avg : ℚ
  pairs : ℚ
  combined_avg : ℚ
  potential_profit : ℚ
  merged_pnl : ℚ
  directional_qty : ℚ
  excess_side : ExcessSide
  directional_market_price : ℚ
  directional_avg_cost : ℚ
  directional_pnl : ℚ
deriving DecidableEq

/-- Property `EnhancedPositionState.total_pnl = merged + directional`. -/
def EnhancedPositionState.total_pnl (s : EnhancedPositionState) : ℚ :=
  s.merged_pnl + s.directional_pnl

/-- PnL decomposition, `EnhancedPositionState.from_inventory_and_orderbook`. -/
def EnhancedPositionState.from_inventory_and_orderbook
    (inventory : Inventory ℚ) (orderbook : OrderbookSnapshot)
    (timestamp : ℚ) : EnhancedPositionState :=
  let pairs := inventory.pairs
  let combined_avg := inventory.combined_avg
  let merged_pnl := pairs * (1 - combined_avg)
  let directional_qty := |inventory.up_qty - inventory.down_qty|
  let excess_side :=
    if inventory.down_qty < inventory.up_qty then ExcessSide.up
    else if inventory.up_qty < inventory.down_qty then ExcessSide.down
    else ExcessSide.balanced
  let directional_market_price :=
    if inventory.down_qty < inventory.up_qty then
      (orderbook.up.best_bid).getD 0
    else if inventory.up_qty < inventory.down_qty then
      (orderbook.down.best_bid).getD 0
    else 0
  let directional_avg_cost :=
    if inventory.down_qty < inventory.up_qty then inventory.up_avg
    else if inventory.up_qty < inventory.down_qty then inventory.down_avg
    else 0
  let directional_pnl :=
    if 0 < directional_qty then
      directional_qty * (directional_market_price - directional_avg_cost)
    else 0
  { timestamp := timestamp
  , up_qty := inventory.up_qty
  , down_qty := inventory.down_qty
  , up_avg := inventory.up_avg
  , down_avg := inventory.down_avg
  , pairs := pairs
  , combined_avg := combined_avg
  , potential_profit := inventory.potential_profit
  , merged_pnl := merged_pnl
  , directional_qty := directional_qty
  , excess_side := excess_side
  , directional_market_price := directional_market_price
  , directional_avg_cost := directional_avg_cost
  , directional_pnl := directional_pnl }

/-- One step of `RealDataSimulator._match_fills`: the loop body over one
fill, acting on the accumulator `(matched, filled_up, filled_down)`. -/
def match_fills_step (bid_up : Option ℚ) (size_up : ℚ) (bid_down : Option ℚ)
    (size_down : ℚ) (acc : List MatchedFill × ℚ × ℚ) (fill : RealFill) :
    List MatchedFill × ℚ × ℚ :=
  if fill.side ≠ Side.sell then acc
  else
    match fill.outcome with
    | Outcome.up =>
      match bid_up with
      | some b =>
        if fill.price ≤ b then
          let remaining := size_up - acc.2.1
          if 0 < remaining then
            let fill_size := min fill.size remaining
            (acc.1 ++ [{ timestamp := fill.timestamp, outcome := Outcome.up
                       , price := b, size := fill_size, original_fill := fill }],
             acc.2.1 + fill_size, acc.2.2)
          else acc
        else acc
      | none => acc
    | Outcome.down =>
      match bid_down with
      | some b =>
        if fill.price ≤ b then
          let remaining := size_down - acc.2.2
          if 0 < remaining then
            let fill_size := min fill.size remaining
            (acc.1 ++ [{ timestamp := fill.timestamp, outcome := Outcome.down
                       , price := b, size := fill_size, original_fill := fill }],
             acc.2.1, acc.2.2 + fill_size)
          else acc
        else acc
      | none => acc

/-- `RealDataSimulator._match_fills`: fold the loop body over the window
fills, starting from `([], 0.0, 0.0)`.  `window_timestamp` is accepted
and unused, exactly as in the source. -/
def match_fills (fills_in_window : List RealFill) (bid_up : Option ℚ)
    (size_up : ℚ) (bid_down : Option ℚ) (size_down : ℚ)
    (window_timestamp : ℚ) : List MatchedFill × ℚ × ℚ :=
  fills_in_window.foldl (match_fills_step bid_up size_up bid_down size_down)
    ([], 0, 0)

/-- Cumulative size of the matched fills of one outcome. -/
def matched_size (o : Outcome) (l : List MatchedFill) : ℚ :=
  ((l.filter (fun e => e.outcome = o)).map (fun e => e.size)).sum

/-- Raw price-level delta (`orderbook_reconstructor.py`, the entries of
`price_changes`): `{timestamp, asset_id, price, size, side}`. -/
structure PriceChange where
  timestamp : ℚ
  asset_id : String
  price : ℚ
  size : ℚ
  side : String
deriving DecidableEq

/-- Ordering of deltas by timestamp, the key of the
`sorted(price_changes, key=lambda x: x["timestamp"])` call. -/
def tsLE (a b : PriceChange) : Prop :=
  a.timestamp ≤ b.timestamp

instance : DecidableRel tsLE := fun a b =>
  inferInstanceAs (Decidable (a.timestamp ≤ b.timestamp))

instance : IsTotal PriceChange tsLE :=
  ⟨fun a b => le_total a.timestamp b.timestamp⟩

instance : IsTrans PriceChange tsLE :=
  ⟨fun _ _ _ h h' => le_trans h h'⟩

/-- Python-dict assignment `d[k] = v` on an insertion-ordered association
list: an existing key keeps its position, a new key is appended. -/
def dictInsert (d : List (ℚ × ℚ)) (k v : ℚ) : List (ℚ × ℚ) :=
  if d.any (fun e => e.1 = k) then
    d.map (fun e => if e.1 = k then (k, v) else e)
  else d ++ [(k, v)]

/-- Python-dict removal `d.pop(k, None)`. -/
def dictPop (d : List (ℚ × ℚ)) (k : ℚ) : List (ℚ × ℚ) :=
  d.filter (fun e => e.1 ≠ k)

/-- Build a level dict from a snapshot's level list:
`for level in levels: d[str(level.price)] = level.size`. -/
def buildLevelDict (levels : List OrderbookLevel) : List (ℚ × ℚ) :=
  levels.foldl (fun d l => dictInsert d l.price l.size) []

/-- One initial snapshot in the raw data format
(`initial_snapshots` entries: `{timestamp, bids, asks}`). -/
structure InitSnapshot where
  timestamp : ℚ
  bids : List OrderbookLevel
  asks : List OrderbookLevel
deriving DecidableEq

/-- The `OrderbookReconstructor` state (`orderbook_reconstructor.py`):
four level dicts, the sorted delta list with its precomputed timestamp
list, and the cursor of the last applied delta. -/
structure OrderbookReconstructor where
  up_token_id : String
  down_token_id : String
  up_bids : List (ℚ × ℚ)
  up_asks : List (ℚ × ℚ)
  down_bids : List (ℚ × ℚ)
  down_asks : List (ℚ × ℚ)
  price_changes : List PriceChange
  change_timestamps : List ℚ
  last_processed_idx : ℤ
  initial_timestamp : ℚ
deriving DecidableEq

/-- `OrderbookReconstructor._apply_change`: route the delta to the level
dict of its asset and side; a nonzero size replaces the level, a zero
(or negative-or-zero) size removes it. -/
def apply_change (st : OrderbookReconstructor) (c : PriceChange) :
    OrderbookReconstructor :=
  if c.asset_id = st.up_token_id then
    if c.side.toLower = "buy" then
      if 0 < c.size then { st with up_bids := dictInsert st.up_bids c.price c.size }
      else { st with up_bids := dictPop st.up_bids c.price }
    else
      if 0 < c.size then { st with up_asks := dictInsert st.up_asks c.price c.size }
      else { st with up_asks := dictPop st.up_asks c.price }
  else if c.asset_id = st.down_token_id then
    if c.side.toLower = "buy" then
      if 0 < c.size then { st with down_bids := dictInsert st.down_bids c.price c.size }
      else { st with down_bids := dictPop st.down_bids c.price }
    else
      if 0 < c.size then { st with down_asks := dictInsert st.down_asks c.price c.size }
      else { st with down_asks := dictPop st.down_asks c.price }
  else st

/-- `OrderbookReconstructor._build_snapshot`: materialize the four dicts
as level lists, keeping only strictly positive sizes. -/
def build_snapshot (st : OrderbookReconstructor) (timestamp : ℚ) :
    OrderbookSnapshot :=
  { up :=
    { bids := (st.up_bids.filter (fun e => 0 < e.2)).map
        (fun e => { price := e.1, size := e.2 })
    , asks := (st.up_asks.filter (fun e => 0 < e.2)).map
        (fun e => { price := e.1, size := e.2 }) }
  , down :=
    { bids := (st.down_bids.filter (fun e => 0 < e.2)).map
        (fun e => { price := e.1, size := e.2 })
    , asks := (st.down_asks.filter (fun e => 0 < e.2)).map
        (fun e => { price := e.1, size := e.2 }) }
  , timestamp := timestamp }

/-- Python `bisect.bisect_right` as in the standard library: binary
search with `lo`/`hi` bounds.  The `while lo < hi` loop is embedded
with a fuel argument; `hi - lo` shrinks every iteration, so any fuel
above the initial `hi - lo` computes the exact same result. -/
def bisectRightAux (a : List ℚ) (x : ℚ) : ℕ → ℕ → ℕ → ℕ
  | 0, lo, _ => lo
  | fuel + 1, lo, hi =>
    if lo < hi then
      let mid := (lo + hi) / 2
      if x < a.getD mid 0 then bisectRightAux a x fuel lo mid
      else bisectRightAux a x fuel (mid + 1) hi
    else lo

/-- `bisect_right(a, x)` over the whole list. -/
def bisectRight (a : List ℚ) (x : ℚ) : ℕ :=
  bisectRightAux a x (a.length + 1) 0 a.length

/-- `OrderbookReconstructor.get_orderbook_at`: apply every not yet
applied delta with index at most `bisect_right(timestamps, t) - 1`,
advance the cursor monotonically, and build the snapshot.  Returns the
snapshot together with the mutated reconstructor. -/
def get_orderbook_at (st : OrderbookReconstructor) (timestamp : ℚ) :
    OrderbookSnapshot × OrderbookReconstructor :=
  if st.change_timestamps.isEmpty then (build_snapshot st timestamp, st)
  else
    let target : ℤ := (bisectRight st.change_timestamps timestamp : ℤ) - 1
    let lo : ℤ := st.last_processed_idx + 1
    let st1 := ((st.price_changes.drop lo.toNat).take
        (target + 1 - lo).toNat).foldl apply_change st
    let st2 := { st1 with
      last_processed_idx := max st.last_processed_idx target }
    (build_snapshot st2 timestamp, st2)

/-- `OrderbookReconstructor.from_raw_data`: build the initial level
dicts from the two token snapshots, sort the deltas by timestamp
(Python's stable `sorted` becomes the stable `insertionSort`),
precompute the timestamp list, and start the cursor at `-1`.  The dict
iteration over `initial_snapshots.items()` is modelled by handing the
up and down snapshots directly. -/
def from_raw_data (up_token_id down_token_id : String)
    (up_snapshot down_snapshot : InitSnapshot)
    (price_changes : List PriceChange) : OrderbookReconstructor :=
  let sorted_changes := List.insertionSort tsLE price_changes
  { up_token_id := up_token_id
  , down_token_id := down_token_id
  , up_bids := buildLevelDict up_snapshot.bids
  , up_asks := buildLevelDict up_snapshot.asks
  , down_bids := buildLevelDict down_snapshot.bids
  , down_asks := buildLevelDict down_snapshot.asks
  , price_changes := sorted_changes
  , change_timestamps := sorted_changes.map (fun c => c.timestamp)
  , last_processed_idx := -1
  , initial_timestamp :=
      max (max 0 up_snapshot.timestamp) down_snapshot.timestamp }

/-- Reconstructor states after each query of a timestamp list, in order:
the stateful trace of repeated `get_orderbook_at` calls. -/
def queryStates (st : OrderbookReconstructor) :
    List ℚ → List OrderbookReconstructor
  | [] => []
  | t :: ts =>
    let st' := (get_orderbook_at st t).2
    st' :: queryStates st' ts

/-- The four internal level maps of a reconstructor. -/
def mapsQuad (st : OrderbookReconstructor) :
    List (ℚ × ℚ) × List (ℚ × ℚ) × List (ℚ × ℚ) × List (ℚ × ℚ) :=
  (st.up_bids, st.up_asks, st.down_bids, st.down_asks)

/-- The deltas with timestamp at most `t`, in timestamp order. -/
def deltasUpTo (st : OrderbookReconstructor) (t : ℚ) : List PriceChange :=
  st.price_changes.filter (fun c => decide (c.timestamp ≤ t))

/-- The snapshot returned when a fresh reconstructor is queried at its
own initial timestamp (the round-trip read). -/
def roundTripResult (up_token_id down_token_id : String)
    (up_snapshot down_snapshot : InitSnapshot)
    (price_changes : List PriceChange) : OrderbookSnapshot :=
  let st := from_raw_data up_token_id down_token_id up_snapshot down_snapshot
    price_changes
  (get_orderbook_at st st.initial_timestamp).1

/-- `FillDrivenSimulator._get_oracle_at`: binary search for the most
recent oracle snapshot at or before `timestamp`, the first snapshot if
the timestamp precedes all data, `None` if there is no data. -/
def get_oracle_at (timestamp : ℚ) (oracle_data : List OracleSnapshot) :
    Option OracleSnapshot :=
  match oracle_data with
  | [] => none
  | o0 :: _ =>
    let timestamps := oracle_data.map (fun o => o.timestamp)
    let idx : ℤ := (bisectRight timestamps timestamp : ℤ) - 1
    if idx < 0 then some o0
    else some (oracle_data.getD idx.toNat o0)

/-- Simple bid quote for both sides (`simulation/quoters.py`,
`SimpleQuote`): the protocol result type of `SimulationQuoter.quote`. -/
structure SimpleQuote where
  bid_up : Option ℚ
  size_up : ℚ
  bid_down : Option ℚ
  size_down : ℚ
deriving DecidableEq

/-- Mutable state of `FillDrivenSimulator.run`: the current inventory,
the accumulated histories and counters, and the reconstructor. -/
structure FDState where
  inventory : Inventory ℚ
  position_history : List EnhancedPositionState
  matched_fills : List MatchedFill
  oracle_history : List OracleSnapshot
  total_fills_considered : ℕ
  up_fills : ℕ
  down_fills : ℕ
  total_volume : ℚ
  recon : OrderbookReconstructor
deriving DecidableEq

/-- Fresh `FillDrivenSimulator.run` state: zero counters, empty
histories, the given starting inventory and reconstructor. -/
def initFDState (recon : OrderbookReconstructor) (inventory : Inventory ℚ) :
    FDState :=
  { inventory := inventory, position_history := [], matched_fills := []
  , oracle_history := [], total_fills_considered := 0, up_fills := 0
  , down_fills := 0, total_volume := 0, recon := recon }

/-- Loop body of `FillDrivenSimulator.run` for one fill.  `quoter` is
the duck-typed `SimulationQuoter.quote` protocol method.  Non-sell
fills are skipped before anything happens; a sell reconstructs the book
at `timestamp - 0.001`, updates the deduplicated oracle history, asks
for a quote, and on a price match updates inventory at our bid for the
full fill size, appending a matched fill and one position snapshot
marked against the book at the exact fill timestamp. -/
def fill_driven_step
    (quoter : OrderbookSnapshot → Option OracleSnapshot → SimpleQuote)
    (oracle : List OracleSnapshot) (st : FDState) (fill : RealFill) :
    FDState :=
  if fill.side ≠ Side.sell then st
  else
    let considered := st.total_fills_considered + 1
    let obr := get_orderbook_at st.recon (fill.timestamp - 1 / 1000)
    let oracle_snapshot := get_oracle_at fill.timestamp oracle
    let oracle_history :=
      match oracle_snapshot with
      | some o =>
        if st.oracle_history.isEmpty ∨ ¬ st.oracle_history.getLast? = some o
        then st.oracle_history ++ [o]
        else st.oracle_history
      | none => st.oracle_history
    let q := quoter obr.1 oracle_snapshot
    let skipped : FDState := { st with
      total_fills_considered := considered,
      oracle_history := oracle_history,
      recon := obr.2 }
    match fill.outcome with
    | Outcome.up =>
      match q.bid_up with
      | some bid =>
        if fill.price ≤ bid then
          let inventory' := st.inventory.update_position Outcome.up fill.size bid
          let obr2 := get_orderbook_at obr.2 fill.timestamp
          { inventory := inventory'
          , position_history := st.position_history ++
              [EnhancedPositionState.from_inventory_and_orderbook inventory'
                obr2.1 fill.timestamp]
          , matched_fills := st.matched_fills ++
              [{ timestamp := fill.timestamp, outcome := Outcome.up
               , price := bid, size := fill.size, original_fill := fill }]
          , oracle_history := oracle_history
          , total_fills_considered := considered
          , up_fills := st.up_fills + 1
          , down_fills := st.down_fills
          , total_volume := st.total_volume + fill.size
          , recon := obr2.2 }
        else skipped
      | none => skipped
    | Outcome.down =>
      match q.bid_down with
      | some bid =>
        if fill.price ≤ bid then
          let inventory' := st.inventory.update_position Outcome.down fill.size bid
          let obr2 := get_orderbook_at obr.2 fill.timestamp
          { inventory := inventory'
          , position_history := st.position_history ++
              [EnhancedPositionState.from_inventory_and_orderbook inventory'
                obr2.1 fill.timestamp]
          , matched_fills := st.matched_fills ++
              [{ timestamp := fill.timestamp, outcome := Outcome.down
               , price := bid, size := fill.size, original_fill := fill }]
          , oracle_history := oracle_history
          , total_fills_considered := considered
          , up_fills := st.up_fills
          , down_fills := st.down_fills + 1
          , total_volume := st.total_volume + fill.size
          , recon := obr2.2 }
        else skipped
      | none => skipped

/-- `FillDrivenSimulator.run`: fold the loop body over the fills. -/
def fill_driven_run
    (quoter : OrderbookSnapshot → Option OracleSnapshot → SimpleQuote)
    (oracle : List OracleSnapshot) (st : FDState) (fills : List RealFill) :
    FDState :=
  fills.foldl (fill_driven_step quoter oracle) st

/-- Placeholder quote result (used only as the default of `Option.getD`
in concrete evaluations). -/
def dummyQuote : QuoteResult ℚ :=
  { bid_up := none, size_up := 0, bid_down := none, size_down := 0
  , oracle_adj := 0, raw_up_offset := 0, raw_down_offset := 0
  , p_informed := 0, base_spread := 0, inventory_q := 0
  , spread_mult_up := 0, spread_mult_down := 0, final_up_offset := 0
  , final_down_offset := 0, raw_size_up := 0, raw_size_down := 0
  , edge_up := 0, edge_down := 0, skip_reason_up := none
  , skip_reason_down := none }

/-- Concrete inventory used by witnesses. -/
def invW : Inventory ℚ :=
  { up_qty := 0, up_avg := 1 / 2, down_qty := 0, down_avg := 1 / 2 }

/-- Concrete market used by witnesses. -/
def mktW : Market ℚ :=
  { best_ask_up := 55 / 100, best_bid_up := 55 / 100
  , best_ask_down := 1 / 2, best_bid_down := 45 / 100 }

/-- Concrete oracle used by witnesses (nonzero threshold). -/
def orcW : Oracle ℚ :=
  { current_price := 2, threshold := 1 }

/-- The concrete quote produced from the witness inputs with the
identity in place of `math.exp`. -/
def quoteW : QuoteResult ℚ :=
  (quote (fun x => x) defaultParams invW mktW orcW 5).getD dummyQuote

/-- The token routing and the four internal level maps of a
reconstructor: everything `_apply_change` reads or writes. -/
def booksView (st : OrderbookReconstructor) :
    String × String ×
      List (ℚ × ℚ) × List (ℚ × ℚ) × List (ℚ × ℚ) × List (ℚ × ℚ) :=
  (st.up_token_id, st.down_token_id,
   st.up_bids, st.up_asks, st.down_bids, st.down_asks)

/-- Number of deltas with timestamp at most `t`. -/
def countUpTo (l : List PriceChange) (t : ℚ) : ℕ :=
  l.countP (fun c => decide (c.timestamp ≤ t))

/-- Empty initial snapshot used by witnesses. -/
def emptySnap : InitSnapshot := { timestamp := 0, bids := [], asks := [] }

/-- Concrete delta used by witnesses. -/
def changeC : PriceChange :=
  { timestamp := 1, asset_id := "U", price := 1 / 2, size := 3
  , side := "buy" }

/-- Constant quoter used by the fill-driven witness: always bids
`0.53` for UP with size 50, does not quote DOWN. -/
def quoterW : OrderbookSnapshot → Option OracleSnapshot → SimpleQuote :=
  fun _ _ =>
    { bid_up := some (53 / 100), size_up := 50, bid_down := none
    , size_down := 0 }

/-- Empty reconstructor used by witnesses. -/
def reconW : OrderbookReconstructor :=
  from_raw_data "U" "D" { timestamp := 0, bids := [], asks := [] }
    { timestamp := 0, bids := [], asks := [] } []

/-- Fresh fill-driven state used by witnesses. -/
def stW : FDState := initFDState reconW invW

/-- Concrete sell fill used by witnesses. -/
def fillW : RealFill :=
  { price := 52 / 100, size := 20, side := Side.sell, timestamp := 10
  , outcome := Outcome.up }

/-- C9: tick snapping follows `round(round(x / 0.01) * 0.01, 2)` for
every price, and in particular `snap(0.515) = 0.52`,
`snap(0.494) = 0.49`, `snap(0.50) = 0.50`, `snap(0.4875) = 0.49`. -/
theorem snap_to_tick_spec :
    (∀ x : ℚ, snap_to_tick x =
      pyRound2 ((pyRound0 (x / TICK_SIZE) : ℚ) * TICK_SIZE))
    ∧ snap_to_tick (0.515 : ℚ) = 0.52
    ∧ snap_to_tick (0.494 : ℚ) = 0.49
    ∧ snap_to_tick (0.50 : ℚ) = 0.50
    ∧ snap_to_tick (0.4875 : ℚ) = 0.49 := by
  refine ⟨fun x => rfl, ?_, ?_, ?_, ?_⟩ <;>
    norm_num [snap_to_tick, pyRound0, pyRound2, TICK_SIZE]

/-- C7 counterexample: with a zero threshold, `Oracle.distance_pct`
raises `ZeroDivisionError` (modelled as `none`) instead of returning
the fallback `0` claimed by the specification. -/
theorem distance_pct_zero_threshold_counterexample :
    Oracle.distance_pct ({ current_price := 1, threshold := 0 } : Oracle ℚ)
      = none
    ∧ Oracle.distance_pct ({ current_price := 1, threshold := 0 } : Oracle ℚ)
      ≠ some 0 := by
  constructor <;> simp [Oracle.distance_pct]

/-- C7 (amended): zero total inventory gives `imbalance = 0` (a defined
fallback, no exception), while a zero oracle threshold makes
`distance_pct` raise `ZeroDivisionError` (here `none`) — the source has
no `0` fallback for the oracle distance. -/
theorem degenerate_input_fallback (inv : Inventory ℚ) (orc : Oracle ℚ)
    (h1 : inv.up_qty + inv.down_qty = 0) (h2 : orc.threshold = 0) :
    inv.imbalance = 0 ∧ orc.distance_pct = none := by
  constructor
  · simp [Inventory.imbalance, h1]
  · simp [Oracle.distance_pct, h2]

/-- Witness for the amended C7 theorem at a concrete zero inventory and
zero-threshold oracle. -/
theorem degenerate_input_fallback_witness :
    ((invW.up_qty + invW.down_qty : ℚ) = 0
      ∧ (({ current_price := 1, threshold := 0 } : Oracle ℚ).threshold = 0))
    ∧ (invW.imbalance = 0
      ∧ Oracle.distance_pct
          ({ current_price := 1, threshold := 0 } : Oracle ℚ) = none) :=
  ⟨⟨by norm_num [invW], rfl⟩,
    degenerate_input_fallback invW { current_price := 1, threshold := 0 }
      (by norm_num [invW]) rfl⟩

/-- C4: the PnL decomposition of
`EnhancedPositionState.from_inventory_and_orderbook`:
`merged_pnl = min(up, down) * (1 - (up_avg + down_avg))`; the excess
side is the strictly larger quantity (`balanced`, zeroed, on equality);
the mark price is the excess book's best bid (`0` if unavailable);
`directional_pnl = |up - down| * (mark - excess avg cost)`; and
`total_pnl = merged_pnl + directional_pnl`. -/
theorem pnl_decomposition (inv : Inventory ℚ) (ob : OrderbookSnapshot)
    (t : ℚ) :
    (EnhancedPositionState.from_inventory_and_orderbook inv ob t).merged_pnl
      = min inv.up_qty inv.down_qty * (1 - (inv.up_avg + inv.down_avg))
    ∧ (EnhancedPositionState.from_inventory_and_orderbook inv ob t).excess_side
      = (if inv.down_qty < inv.up_qty then ExcessSide.up
         else if inv.up_qty < inv.down_qty then ExcessSide.down
         else ExcessSide.balanced)
    ∧ (EnhancedPositionState.from_inventory_and_orderbook inv ob
        t).directional_market_price
      = (match (EnhancedPositionState.from_inventory_and_orderbook inv ob
            t).excess_side with
         | ExcessSide.up => (ob.up.best_bid).getD 0
         | ExcessSide.down => (ob.down.best_bid).getD 0
         | ExcessSide.balanced => 0)
    ∧ (EnhancedPositionState.from_inventory_and_orderbook inv ob
        t).directional_avg_cost
      = (match (EnhancedPositionState.from_inventory_and_orderbook inv ob
            t).excess_side with
         | ExcessSide.up => inv.up_avg
         | ExcessSide.down => inv.down_avg
         | ExcessSide.balanced => 0)
    ∧ (EnhancedPositionState.from_inventory_and_orderbook inv ob
        t).directional_pnl
      = |inv.up_qty - inv.down_qty| *
        ((EnhancedPositionState.from_inventory_and_orderbook inv ob
            t).directional_market_price -
         (EnhancedPositionState.from_inventory_and_orderbook inv ob
            t).directional_avg_cost)
    ∧ (EnhancedPositionState.from_inventory_and_orderbook inv ob t).total_pnl
      = (EnhancedPositionState.from_inventory_and_orderbook inv ob t).merged_pnl
        + (EnhancedPositionState.from_inventory_and_orderbook inv ob
            t).directional_pnl := by
  unfold EnhancedPositionState.from_inventory_and_orderbook
    EnhancedPositionState.total_pnl
  rcases lt_trichotomy inv.down_qty inv.up_qty with h | h | h
  · have hs : (0 : ℚ) < inv.up_qty - inv.down_qty := sub_pos.mpr h
    have habs : |inv.up_qty - inv.down_qty| = inv.up_qty - inv.down_qty :=
      abs_of_pos hs
    simp [Inventory.pairs, Inventory.combined_avg, h, asymm h, habs, hs]
  · simp [Inventory.pairs, Inventory.combined_avg, h]
  · have hs : (0 : ℚ) < inv.down_qty - inv.up_qty := sub_pos.mpr h
    have habs : |inv.up_qty - inv.down_qty| = inv.down_qty - inv.up_qty := by
      rw [abs_sub_comm]
      exact abs_of_pos hs
    simp [Inventory.pairs, Inventory.combined_avg, h, asymm h, habs, hs]

/-- C5: for positive `time_decay_minutes` and positive
`p_informed_base`, `p_informed = min(0.8, base * exp(-minutes/decay))`,
it is monotonically decreasing in `minutes_to_resolution`, never
exceeds `0.8` for any input, and the spread is
`base_spread * (1 + 3 * p_informed)`. -/
theorem adverse_selection_layer (p : QuoterParams ℝ)
    (hd : 0 < p.time_decay_minutes) (hb : 0 < p.p_informed_base)
    (m1 m2 : ℝ) (hm : m1 ≤ m2) :
    (calculate_adverse_selection Real.exp p m1).1
      = min 0.8 (p.p_informed_base * Real.exp (-m1 / p.time_decay_minutes))
    ∧ (calculate_adverse_selection Real.exp p m2).1
      ≤ (calculate_adverse_selection Real.exp p m1).1
    ∧ (∀ m : ℝ, (calculate_adverse_selection Real.exp p m).1 ≤ 0.8)
    ∧ (∀ m : ℝ, (calculate_adverse_selection Real.exp p m).2
        = p.base_spread *
          (1 + 3 * (calculate_adverse_selection Real.exp p m).1)) := by
  have h08 : (8 / 10 : ℝ) = 0.8 := by norm_num
  refine ⟨by unfold calculate_adverse_selection; norm_num, ?_, ?_, fun m => rfl⟩
  · unfold calculate_adverse_selection
    refine min_le_min le_rfl ?_
    refine mul_le_mul_of_nonneg_left ?_ hb.le
    exact Real.exp_le_exp.mpr ((div_le_div_iff_of_pos_right hd).mpr
      (neg_le_neg hm))
  · intro m
    unfold calculate_adverse_selection
    exact h08 ▸ min_le_left _ _

/-- Witness for the adverse-selection theorem at the default parameters
and `minutes = 1, 2`. -/
theorem adverse_selection_layer_witness :
    ((0 : ℝ) < (⟨5, 1 / 50, 1 / 5, 5, 1 / 2, 1, 50, 1 / 100, 1 / 100⟩ : QuoterParams ℝ).time_decay_minutes
      ∧ (0 : ℝ) < (⟨5, 1 / 50, 1 / 5, 5, 1 / 2, 1, 50, 1 / 100, 1 / 100⟩ : QuoterParams ℝ).p_informed_base ∧ (1 : ℝ) ≤ 2)
    ∧ ((calculate_adverse_selection Real.exp (⟨5, 1 / 50, 1 / 5, 5, 1 / 2, 1, 50, 1 / 100, 1 / 100⟩ : QuoterParams ℝ) 1).1
        = min 0.8 ((⟨5, 1 / 50, 1 / 5, 5, 1 / 2, 1, 50, 1 / 100, 1 / 100⟩ : QuoterParams ℝ).p_informed_base *
            Real.exp (-1 / (⟨5, 1 / 50, 1 / 5, 5, 1 / 2, 1, 50, 1 / 100, 1 / 100⟩ : QuoterParams ℝ).time_decay_minutes))
      ∧ (calculate_adverse_selection Real.exp (⟨5, 1 / 50, 1 / 5, 5, 1 / 2, 1, 50, 1 / 100, 1 / 100⟩ : QuoterParams ℝ) 2).1
        ≤ (calculate_adverse_selection Real.exp (⟨5, 1 / 50, 1 / 5, 5, 1 / 2, 1, 50, 1 / 100, 1 / 100⟩ : QuoterParams ℝ) 1).1
      ∧ (∀ m : ℝ, (calculate_adverse_selection Real.exp (⟨5, 1 / 50, 1 / 5, 5, 1 / 2, 1, 50, 1 / 100, 1 / 100⟩ : QuoterParams ℝ) m).1 ≤ 0.8)
      ∧ (∀ m : ℝ, (calculate_adverse_selection Real.exp (⟨5, 1 / 50, 1 / 5, 5, 1 / 2, 1, 50, 1 / 100, 1 / 100⟩ : QuoterParams ℝ) m).2
          = (⟨5, 1 / 50, 1 / 5, 5, 1 / 2, 1, 50, 1 / 100, 1 / 100⟩ : QuoterParams ℝ).base_spread *
            (1 + 3 * (calculate_adverse_selection Real.exp (⟨5, 1 / 50, 1 / 5, 5, 1 / 2, 1, 50, 1 / 100, 1 / 100⟩ : QuoterParams ℝ) m).1))) :=
  ⟨⟨by norm_num, by norm_num, by norm_num⟩,
    adverse_selection_layer (⟨5, 1 / 50, 1 / 5, 5, 1 / 2, 1, 50, 1 / 100, 1 / 100⟩ : QuoterParams ℝ) (by norm_num)
      (by norm_num) 1 2 (by norm_num)⟩

/-- With a nonzero oracle threshold the quoter does not raise: `quote`
returns `some` of its own defaulted value. -/
theorem quote_eq_some_getD (E : α → α) [FloorRing α] (p : QuoterParams α)
    (inventory : Inventory α) (market : Market α) (oracle : Oracle α)
    (m : α) (d : QuoteResult α) (h : oracle.threshold ≠ 0) :
    quote E p inventory market oracle m
      = some ((quote E p inventory market oracle m).getD d) := by
  unfold quote calculate_oracle_adjusted_offsets Oracle.distance_pct
  rw [if_neg h]
  rfl

/-- C6: the quote's bid for a side is the tick-snapped
`best_bid - final_offset` when the edge `best_ask - snapped_bid` is at
least `edge_threshold`, and is `none` with a recorded skip reason
exactly when the edge is below the threshold; concretely,
`check_edge(bid=0.53, ask=0.55)` accepts with edge `0.02` and
`check_edge(bid=0.545, ask=0.55)` rejects with edge `0.005` at the
default `0.01` threshold. -/
theorem edge_check_spec [FloorRing α] (E : α → α) (p : QuoterParams α)
    (inventory : Inventory α) (market : Market α) (oracle : Oracle α)
    (m : α) (q : QuoteResult α)
    (h : quote E p inventory market oracle m = some q) :
    (q.bid_up = if market.best_ask_up -
        snap_to_tick (market.best_bid_up - q.final_up_offset) <
        p.edge_threshold then none
      else some (snap_to_tick (market.best_bid_up - q.final_up_offset)))
    ∧ q.edge_up = market.best_ask_up -
        snap_to_tick (market.best_bid_up - q.final_up_offset)
    ∧ (q.skip_reason_up.isSome ↔ market.best_ask_up -
        snap_to_tick (market.best_bid_up - q.final_up_offset) <
        p.edge_threshold)
    ∧ (q.bid_down = if market.best_ask_down -
        snap_to_tick (market.best_bid_down - q.final_down_offset) <
        p.edge_threshold then none
      else some (snap_to_tick (market.best_bid_down - q.final_down_offset)))
    ∧ q.edge_down = market.best_ask_down -
        snap_to_tick (market.best_bid_down - q.final_down_offset)
    ∧ (q.skip_reason_down.isSome ↔ market.best_ask_down -
        snap_to_tick (market.best_bid_down - q.final_down_offset) <
        p.edge_threshold)
    ∧ (check_edge defaultParams (53 / 100 : ℚ) (55 / 100)).1 = true
    ∧ (check_edge defaultParams (53 / 100 : ℚ) (55 / 100)).2.1 = 1 / 50
    ∧ (check_edge defaultParams (545 / 1000 : ℚ) (55 / 100)).1 = false
    ∧ (check_edge defaultParams (545 / 1000 : ℚ) (55 / 100)).2.1 = 1 / 200 := by
  unfold quote at h
  dsimp only at h
  cases hdp : calculate_oracle_adjusted_offsets p oracle
    (calculate_adverse_selection E p m).2 with
  | none => rw [hdp] at h; exact absurd h (by simp)
  | some ofs =>
    rw [hdp] at h
    obtain rfl : _ = q := Option.some.inj h
    refine ⟨?_, ?_, ?_, ?_, ?_, ?_, ?_, ?_, ?_, ?_⟩
    · by_cases hlt : market.best_ask_up - snap_to_tick (market.best_bid_up -
        ofs.2.1 * (calculate_inventory_skew E p inventory).1) <
        p.edge_threshold <;>
        simp [check_edge, hlt]
    · by_cases hlt : market.best_ask_up - snap_to_tick (market.best_bid_up -
        ofs.2.1 * (calculate_inventory_skew E p inventory).1) <
        p.edge_threshold <;>
        simp [check_edge, hlt]
    · by_cases hlt : market.best_ask_up - snap_to_tick (market.best_bid_up -
        ofs.2.1 * (calculate_inventory_skew E p inventory).1) <
        p.edge_threshold <;>
        simp [check_edge, hlt]
    · by_cases hlt : market.best_ask_down - snap_to_tick (market.best_bid_down -
        ofs.2.2 * (calculate_inventory_skew E p inventory).2.1) <
        p.edge_threshold <;>
        simp [check_edge, hlt]
    · by_cases hlt : market.best_ask_down - snap_to_tick (market.best_bid_down -
        ofs.2.2 * (calculate_inventory_skew E p inventory).2.1) <
        p.edge_threshold <;>
        simp [check_edge, hlt]
    · by_cases hlt : market.best_ask_down - snap_to_tick (market.best_bid_down -
        ofs.2.2 * (calculate_inventory_skew E p inventory).2.1) <
        p.edge_threshold <;>
        simp [check_edge, hlt]
    · norm_num [check_edge, defaultParams]
    · norm_num [check_edge, defaultParams]
    · norm_num [check_edge, defaultParams]
    · norm_num [check_edge, defaultParams]

/-- Witness for the edge-check theorem at a concrete quote. -/
theorem edge_check_spec_witness :
    quoteW.bid_up = (if mktW.best_ask_up -
        snap_to_tick (mktW.best_bid_up - quoteW.final_up_offset) <
        defaultParams.edge_threshold then none
      else some (snap_to_tick (mktW.best_bid_up - quoteW.final_up_offset))) :=
  (edge_check_spec (fun x => x) defaultParams invW mktW orcW 5 quoteW
    (by unfold quoteW
        exact quote_eq_some_getD (fun x => x) defaultParams invW mktW orcW 5
          dummyQuote (by norm_num [orcW]))).1

/-- C10: a side that passes the edge check gets the integer-rounded raw
size, a side that fails gets the size `0` exactly, and the unrounded
sizes `base_size * exp(∓lambda * imbalance)` are still reported in
`raw_size_up` / `raw_size_down`. -/
theorem quote_size_rounding [FloorRing α] (E : α → α) (p : QuoterParams α)
    (inventory : Inventory α) (market : Market α) (oracle : Oracle α)
    (m : α) (q : QuoteResult α)
    (h : quote E p inventory market oracle m = some q) :
    (q.size_up = if market.best_ask_up -
        snap_to_tick (market.best_bid_up - q.final_up_offset) <
        p.edge_threshold then 0 else (pyRound0 q.raw_size_up : α))
    ∧ (q.size_down = if market.best_ask_down -
        snap_to_tick (market.best_bid_down - q.final_down_offset) <
        p.edge_threshold then 0 else (pyRound0 q.raw_size_down : α))
    ∧ q.raw_size_up = p.base_size * E (-p.lambda_size * inventory.imbalance)
    ∧ q.raw_size_down
      = p.base_size * E (p.lambda_size * inventory.imbalance) := by
  unfold quote at h
  dsimp only at h
  cases hdp : calculate_oracle_adjusted_offsets p oracle
    (calculate_adverse_selection E p m).2 with
  | none => rw [hdp] at h; exact absurd h (by simp)
  | some ofs =>
    rw [hdp] at h
    obtain rfl : _ = q := Option.some.inj h
    refine ⟨?_, ?_, ?_, ?_⟩
    · by_cases hlt : market.best_ask_up - snap_to_tick (market.best_bid_up -
        ofs.2.1 * (calculate_inventory_skew E p inventory).1) <
        p.edge_threshold <;>
        simp [check_edge, hlt]
    · by_cases hlt : market.best_ask_down - snap_to_tick (market.best_bid_down -
        ofs.2.2 * (calculate_inventory_skew E p inventory).2.1) <
        p.edge_threshold <;>
        simp [check_edge, hlt]
    · simp [calculate_inventory_skew]
    · simp [calculate_inventory_skew]

/-- Witness for the size-rounding theorem at a concrete quote. -/
theorem quote_size_rounding_witness :
    quoteW.size_up = (if mktW.best_ask_up -
        snap_to_tick (mktW.best_bid_up - quoteW.final_up_offset) <
        defaultParams.edge_threshold then 0
      else (pyRound0 quoteW.raw_size_up : ℚ)) :=
  (quote_size_rounding (fun x => x) defaultParams invW mktW orcW 5 quoteW
    (by unfold quoteW
        exact quote_eq_some_getD (fun x => x) defaultParams invW mktW orcW 5
          dummyQuote (by norm_num [orcW]))).1

/-- Cumulative matched size distributes over list append. -/
theorem matched_size_append (o : Outcome) (l1 l2 : List MatchedFill) :
    matched_size o (l1 ++ l2) = matched_size o l1 + matched_size o l2 := by
  simp [matched_size]

/-- Cumulative matched size of a singleton. -/
theorem matched_size_single (o : Outcome) (e : MatchedFill) :
    matched_size o [e] = if e.outcome = o then e.size else 0 := by
  by_cases h : e.outcome = o <;> simp [matched_size, h]

/-- One `_match_fills` loop step preserves the windows invariant: the
per-side filled totals stay at the sum of the recorded matched sizes,
never exceed the quoted sizes, and every recorded entry is priced at
the corresponding bid. -/
theorem match_fills_step_inv (bid_up : Option ℚ) (size_up : ℚ)
    (bid_down : Option ℚ) (size_down : ℚ)
    (acc : List MatchedFill × ℚ × ℚ) (f : RealFill)
    (h1 : acc.2.1 ≤ size_up) (h2 : acc.2.2 ≤ size_down)
    (h3 : acc.2.1 = matched_size Outcome.up acc.1)
    (h4 : acc.2.2 = matched_size Outcome.down acc.1)
    (h5 : ∀ e ∈ acc.1, (e.outcome = Outcome.up → bid_up = some e.price)
      ∧ (e.outcome = Outcome.down → bid_down = some e.price)) :
    (match_fills_step bid_up size_up bid_down size_down acc f).2.1 ≤ size_up
    ∧ (match_fills_step bid_up size_up bid_down size_down acc f).2.2
        ≤ size_down
    ∧ (match_fills_step bid_up size_up bid_down size_down acc f).2.1
      = matched_size Outcome.up
          (match_fills_step bid_up size_up bid_down size_down acc f).1
    ∧ (match_fills_step bid_up size_up bid_down size_down acc f).2.2
      = matched_size Outcome.down
          (match_fills_step bid_up size_up bid_down size_down acc f).1
    ∧ (∀ e ∈ (match_fills_step bid_up size_up bid_down size_down acc f).1,
        (e.outcome = Outcome.up → bid_up = some e.price)
        ∧ (e.outcome = Outcome.down → bid_down = some e.price)) := by
  unfold match_fills_step
  by_cases hside : f.side ≠ Side.sell
  · rw [if_pos hside]
    exact ⟨h1, h2, h3, h4, h5⟩
  · rw [if_neg hside]
    cases f.outcome with
    | up =>
      cases bid_up with
      | some b =>
        dsimp only
        by_cases hp : f.price ≤ b
        · rw [if_pos hp]
          by_cases hr : 0 < size_up - acc.2.1
          · rw [if_pos hr]
            dsimp only
            refine ⟨?_, h2, ?_, ?_, ?_⟩
            · have hmin : min f.size (size_up - acc.2.1) ≤ size_up - acc.2.1 :=
                min_le_right _ _
              linarith
            · simp [matched_size_append, matched_size_single, ← h3]
            · simp [matched_size_append, matched_size_single, h4]
            · intro e he
              rcases List.mem_append.mp he with he | he
              · exact h5 e he
              · rcases List.mem_singleton.mp he with rfl
                exact ⟨fun _ => rfl, fun hcon => by simp at hcon⟩
          · rw [if_neg hr]
            exact ⟨h1, h2, h3, h4, h5⟩
        · rw [if_neg hp]
          exact ⟨h1, h2, h3, h4, h5⟩
      | none => exact ⟨h1, h2, h3, h4, h5⟩
    | down =>
      cases bid_down with
      | some b =>
        dsimp only
        by_cases hp : f.price ≤ b
        · rw [if_pos hp]
          by_cases hr : 0 < size_down - acc.2.2
          · rw [if_pos hr]
            dsimp only
            refine ⟨h1, ?_, ?_, ?_, ?_⟩
            · have hmin : min f.size (size_down - acc.2.2) ≤ size_down - acc.2.2 :=
                min_le_right _ _
              linarith
            · simp [matched_size_append, matched_size_single, h3]
            · simp [matched_size_append, matched_size_single, ← h4]
            · intro e he
              rcases List.mem_append.mp he with he | he
              · exact h5 e he
              · rcases List.mem_singleton.mp he with rfl
                exact ⟨fun hcon => by simp at hcon, fun _ => rfl⟩
          · rw [if_neg hr]
            exact ⟨h1, h2, h3, h4, h5⟩
        · rw [if_neg hp]
          exact ⟨h1, h2, h3, h4, h5⟩
      | none => exact ⟨h1, h2, h3, h4, h5⟩

/-- The `_match_fills` fold preserves the window invariant. -/
theorem match_fills_foldl_inv (bid_up : Option ℚ) (size_up : ℚ)
    (bid_down : Option ℚ) (size_down : ℚ) (fills : List RealFill) :
    ∀ acc : List MatchedFill × ℚ × ℚ,
      acc.2.1 ≤ size_up → acc.2.2 ≤ size_down →
      acc.2.1 = matched_size Outcome.up acc.1 →
      acc.2.2 = matched_size Outcome.down acc.1 →
      (∀ e ∈ acc.1, (e.outcome = Outcome.up → bid_up = some e.price)
        ∧ (e.outcome = Outcome.down → bid_down = some e.price)) →
      (fills.foldl (match_fills_step bid_up size_up bid_down size_down)
          acc).2.1 ≤ size_up
      ∧ (fills.foldl (match_fills_step bid_up size_up bid_down size_down)
          acc).2.2 ≤ size_down
      ∧ (fills.foldl (match_fills_step bid_up size_up bid_down size_down)
          acc).2.1 = matched_size Outcome.up
          (fills.foldl (match_fills_step bid_up size_up bid_down size_down)
            acc).1
      ∧ (fills.foldl (match_fills_step bid_up size_up bid_down size_down)
          acc).2.2 = matched_size Outcome.down
          (fills.foldl (match_fills_step bid_up size_up bid_down size_down)
            acc).1
      ∧ (∀ e ∈ (fills.foldl
            (match_fills_step bid_up size_up bid_down size_down) acc).1,
          (e.outcome = Outcome.up → bid_up = some e.price)
          ∧ (e.outcome = Outcome.down → bid_down = some e.price)) := by
  induction fills with
  | nil => exact fun acc h1 h2 h3 h4 h5 => ⟨h1, h2, h3, h4, h5⟩
  | cons f fs ih =>
    intro acc h1 h2 h3 h4 h5
    have hstep := match_fills_step_inv bid_up size_up bid_down size_down acc f
      h1 h2 h3 h4 h5
    exact ih _ hstep.1 hstep.2.1 hstep.2.2.1 hstep.2.2.2.1 hstep.2.2.2.2

/-- C2: per snapshot window, `_match_fills` never fills more cumulative
size per side than the quoted size for that side: the filled totals
equal the sum of the recorded per-side matched sizes, stay below the
quoted sizes, and every matched entry carries our bid price; sells are
processed sequentially in list order by the fold. -/
theorem snapshot_window_size_cap (fills : List RealFill) (bid_up : Option ℚ)
    (size_up : ℚ) (bid_down : Option ℚ) (size_down : ℚ)
    (window_timestamp : ℚ) (hsu : 0 ≤ size_up) (hsd : 0 ≤ size_down) :
    matched_size Outcome.up
        (match_fills fills bid_up size_up bid_down size_down
          window_timestamp).1 ≤ size_up
    ∧ matched_size Outcome.down
        (match_fills fills bid_up size_up bid_down size_down
          window_timestamp).1 ≤ size_down
    ∧ (match_fills fills bid_up size_up bid_down size_down
        window_timestamp).2.1
      = matched_size Outcome.up
        (match_fills fills bid_up size_up bid_down size_down
          window_timestamp).1
    ∧ (match_fills fills bid_up size_up bid_down size_down
        window_timestamp).2.2
      = matched_size Outcome.down
        (match_fills fills bid_up size_up bid_down size_down
          window_timestamp).1
    ∧ (∀ e ∈ (match_fills fills bid_up size_up bid_down size_down
          window_timestamp).1,
        (e.outcome = Outcome.up → bid_up = some e.price)
        ∧ (e.outcome = Outcome.down → bid_down = some e.price)) := by
  have h := match_fills_foldl_inv bid_up size_up bid_down size_down fills
    ([], 0, 0) (by simpa) (by simpa) (by simp [matched_size])
    (by simp [matched_size]) (by simp)
  unfold match_fills
  exact ⟨h.2.2.1 ▸ h.1, h.2.2.2.1 ▸ h.2.1, h.2.2.1, h.2.2.2.1, h.2.2.2.2⟩

/-- Witness for the window size cap at a concrete window. -/
theorem snapshot_window_size_cap_witness :
    ((0 : ℚ) ≤ 50 ∧ (0 : ℚ) ≤ 50)
    ∧ matched_size Outcome.up
        (match_fills
          [{ price := 52 / 100, size := 20, side := Side.sell
           , timestamp := 10, outcome := Outcome.up }]
          (some (53 / 100)) 50 none 50 10).1 ≤ 50 :=
  ⟨⟨by norm_num, by norm_num⟩,
    (snapshot_window_size_cap
      [{ price := 52 / 100, size := 20, side := Side.sell
       , timestamp := 10, outcome := Outcome.up }]
      (some (53 / 100)) 50 none 50 10 (by norm_num) (by norm_num)).1⟩

/-- The step of `FillDrivenSimulator.run` counts exactly the sell
fills. -/
theorem fill_driven_step_considered
    (quoter : OrderbookSnapshot → Option OracleSnapshot → SimpleQuote)
    (oracle : List OracleSnapshot) (st : FDState) (f : RealFill) :
    (fill_driven_step quoter oracle st f).total_fills_considered
      = st.total_fills_considered
        + (if f.side = Side.sell then 1 else 0) := by
  unfold fill_driven_step
  by_cases hside : f.side ≠ Side.sell
  · rw [if_pos hside]
    simp [hside]
  · have hs : f.side = Side.sell := not_not.mp hside
    rw [if_neg hside]
    dsimp only
    repeat' split <;>
      simp_all [apply_ite (fun s : FDState => s.total_fills_considered)]

/-- C1: the fill-driven matching rule.  Non-sell fills leave the whole
state unchanged; each sell increments `total_fills_considered` (the run
counts exactly the sells); a sell with outcome `up` whose price is at
most the quoted `bid_up` updates inventory at OUR bid for the full fill
size and appends one matched fill; a sell with no quoted bid or a too
high price leaves inventory and matched fills unchanged (symmetrically
for `down`). -/
theorem fill_driven_matching
    (quoter : OrderbookSnapshot → Option OracleSnapshot → SimpleQuote)
    (oracle : List OracleSnapshot) (st : FDState) (f : RealFill)
    (fills : List RealFill) (st0 : FDState) :
    (f.side = Side.buy → fill_driven_step quoter oracle st f = st)
    ∧ (f.side = Side.sell →
        (fill_driven_step quoter oracle st f).total_fills_considered
          = st.total_fills_considered + 1)
    ∧ (fill_driven_run quoter oracle st0 fills).total_fills_considered
      = st0.total_fills_considered
        + fills.countP (fun g => decide (g.side = Side.sell))
    ∧ (∀ b, f.side = Side.sell → f.outcome = Outcome.up →
        (quoter (get_orderbook_at st.recon (f.timestamp - 1 / 1000)).1
          (get_oracle_at f.timestamp oracle)).bid_up = some b →
        f.price ≤ b →
        (fill_driven_step quoter oracle st f).inventory
          = st.inventory.update_position Outcome.up f.size b
        ∧ (fill_driven_step quoter oracle st f).matched_fills
          = st.matched_fills ++
            [{ timestamp := f.timestamp, outcome := Outcome.up, price := b
             , size := f.size, original_fill := f }])
    ∧ (∀ b, f.side = Side.sell → f.outcome = Outcome.down →
        (quoter (get_orderbook_at st.recon (f.timestamp - 1 / 1000)).1
          (get_oracle_at f.timestamp oracle)).bid_down = some b →
        f.price ≤ b →
        (fill_driven_step quoter oracle st f).inventory
          = st.inventory.update_position Outcome.down f.size b
        ∧ (fill_driven_step quoter oracle st f).matched_fills
          = st.matched_fills ++
            [{ timestamp := f.timestamp, outcome := Outcome.down, price := b
             , size := f.size, original_fill := f }])
    ∧ (f.side = Side.sell → f.outcome = Outcome.up →
        ¬ (∃ b, (quoter (get_orderbook_at st.recon
              (f.timestamp - 1 / 1000)).1
            (get_oracle_at f.timestamp oracle)).bid_up = some b
          ∧ f.price ≤ b) →
        (fill_driven_step quoter oracle st f).inventory = st.inventory
        ∧ (fill_driven_step quoter oracle st f).matched_fills
          = st.matched_fills)
    ∧ (f.side = Side.sell → f.outcome = Outcome.down →
        ¬ (∃ b, (quoter (get_orderbook_at st.recon
              (f.timestamp - 1 / 1000)).1
            (get_oracle_at f.timestamp oracle)).bid_down = some b
          ∧ f.price ≤ b) →
        (fill_driven_step quoter oracle st f).inventory = st.inventory
        ∧ (fill_driven_step quoter oracle st f).matched_fills
          = st.matched_fills) := by
  refine ⟨?_, ?_, ?_, ?_, ?_, ?_, ?_⟩
  · intro hb
    unfold fill_driven_step
    rw [if_pos (by simp [hb])]
  · intro hs
    rw [fill_driven_step_considered]
    simp [hs]
  · induction fills generalizing st0 with
    | nil => simp [fill_driven_run]
    | cons g gs ih =>
      have hrun : fill_driven_run quoter oracle st0 (g :: gs)
          = fill_driven_run quoter oracle
            (fill_driven_step quoter oracle st0 g) gs := rfl
      rw [hrun, ih, fill_driven_step_considered, List.countP_cons]
      by_cases hg : g.side = Side.sell
      · simp [hg]
        omega
      · simp [hg]
  · intro b hs ho hb hp
    unfold fill_driven_step
    rw [if_neg (by simp [hs])]
    dsimp only
    rw [ho]
    dsimp only
    rw [hb]
    dsimp only
    rw [if_pos hp]
    exact ⟨rfl, rfl⟩
  · intro b hs ho hb hp
    unfold fill_driven_step
    rw [if_neg (by simp [hs])]
    dsimp only
    rw [ho]
    dsimp only
    rw [hb]
    dsimp only
    rw [if_pos hp]
    exact ⟨rfl, rfl⟩
  · intro hs ho hnm
    unfold fill_driven_step
    rw [if_neg (by simp [hs])]
    dsimp only
    rw [ho]
    dsimp only
    cases hq : (quoter (get_orderbook_at st.recon (f.timestamp - 1 / 1000)).1
        (get_oracle_at f.timestamp oracle)).bid_up with
    | none => exact ⟨rfl, rfl⟩
    | some b =>
      have hnp : ¬ f.price ≤ b := fun hp => hnm ⟨b, hq, hp⟩
      dsimp only
      rw [if_neg hnp]
      exact ⟨rfl, rfl⟩
  · intro hs ho hnm
    unfold fill_driven_step
    rw [if_neg (by simp [hs])]
    dsimp only
    rw [ho]
    dsimp only
    cases hq : (quoter (get_orderbook_at st.recon (f.timestamp - 1 / 1000)).1
        (get_oracle_at f.timestamp oracle)).bid_down with
    | none => exact ⟨rfl, rfl⟩
    | some b =>
      have hnp : ¬ f.price ≤ b := fun hp => hnm ⟨b, hq, hp⟩
      dsimp only
      rw [if_neg hnp]
      exact ⟨rfl, rfl⟩

/-- Witness for the fill-driven matching rule: a concrete sell UP fill
at `0.52` against a constant quoter bidding `0.53`. -/
theorem fill_driven_matching_witness :
    (fillW.side = Side.sell ∧ fillW.outcome = Outcome.up
      ∧ (quoterW (get_orderbook_at stW.recon (fillW.timestamp - 1 / 1000)).1
          (get_oracle_at fillW.timestamp [])).bid_up = some (53 / 100)
      ∧ fillW.price ≤ 53 / 100)
    ∧ ((fill_driven_step quoterW [] stW fillW).inventory
        = stW.inventory.update_position Outcome.up fillW.size (53 / 100)
      ∧ (fill_driven_step quoterW [] stW fillW).matched_fills
        = stW.matched_fills ++
          [{ timestamp := fillW.timestamp, outcome := Outcome.up
           , price := 53 / 100, size := fillW.size, original_fill := fillW }]) :=
  ⟨⟨rfl, rfl, rfl, by norm_num [fillW]⟩,
    (fill_driven_matching quoterW [] stW fillW [] stW).2.2.2.1 (53 / 100)
      rfl rfl rfl (by norm_num [fillW])⟩

/-- In a `≤`-sorted rational list, `getD` is monotone below the
length. -/
theorem sorted_getD_mono (a : List ℚ) (hs : a.Pairwise (· ≤ ·)) {i j : ℕ}
    (hij : i ≤ j) (hj : j < a.length) : a.getD i 0 ≤ a.getD j 0 := by
  rcases eq_or_lt_of_le hij with rfl | hlt
  · exact le_refl _
  · have hi : i < a.length := lt_trans hlt hj
    rw [List.getD_eq_getElem a 0 hi, List.getD_eq_getElem a 0 hj]
    exact List.pairwise_iff_getElem.mp hs i j hi hj hlt

/-- The fueled binary search of `bisect_right` lands on the boundary:
given enough fuel and a sorted window, everything below the result is
at most `x` and everything from the result on is above `x`. -/
theorem bisectRightAux_spec (a : List ℚ) (x : ℚ)
    (hs : a.Pairwise (· ≤ ·)) :
    ∀ (fuel lo hi : ℕ), hi - lo < fuel → lo ≤ hi → hi ≤ a.length →
      (∀ i, i < lo → a.getD i 0 ≤ x) →
      (∀ i, hi ≤ i → i < a.length → x < a.getD i 0) →
      lo ≤ bisectRightAux a x fuel lo hi
      ∧ bisectRightAux a x fuel lo hi ≤ hi
      ∧ (∀ i, i < bisectRightAux a x fuel lo hi → a.getD i 0 ≤ x)
      ∧ (∀ i, bisectRightAux a x fuel lo hi ≤ i → i < a.length →
          x < a.getD i 0) := by
  intro fuel
  induction fuel with
  | zero => intro lo hi hf _ _ _ _; exact absurd hf (by omega)
  | succ fuel ih =>
    intro lo hi hf hlohi hhi hpre hsuf
    have hunf : bisectRightAux a x (fuel + 1) lo hi
        = if lo < hi then
            if x < a.getD ((lo + hi) / 2) 0 then
              bisectRightAux a x fuel lo ((lo + hi) / 2)
            else bisectRightAux a x fuel ((lo + hi) / 2 + 1) hi
          else lo := rfl
    by_cases hlh : lo < hi
    · have hmid1 : lo ≤ (lo + hi) / 2 := by omega
      have hmid2 : (lo + hi) / 2 < hi := by omega
      by_cases hx : x < a.getD ((lo + hi) / 2) 0
      · have hrec := ih lo ((lo + hi) / 2) (by omega) hmid1 (by omega) hpre
          (fun i hi1 hi2 => lt_of_lt_of_le hx
            (sorted_getD_mono a hs hi1 hi2))
        rw [hunf, if_pos hlh, if_pos hx]
        exact ⟨hrec.1, le_trans hrec.2.1 (le_of_lt hmid2), hrec.2.2⟩
      · have hle : a.getD ((lo + hi) / 2) 0 ≤ x := not_lt.mp hx
        have hrec := ih ((lo + hi) / 2 + 1) hi (by omega) (by omega) hhi
          (fun i hi1 => le_trans
            (sorted_getD_mono a hs (by omega) (by omega)) hle)
          hsuf
        rw [hunf, if_pos hlh, if_neg hx]
        exact ⟨by omega, hrec.2.1, hrec.2.2⟩
    · have hres : bisectRightAux a x (fuel + 1) lo hi = lo := by
        unfold bisectRightAux
        rw [if_neg hlh]
      rw [hres]
      exact ⟨le_refl _, hlohi, hpre, fun i hli hlen => hsuf i (by omega) hlen⟩

/-- A boundary position determines the count of elements at most `x`. -/
theorem countP_le_eq_of_boundary (x : ℚ) :
    ∀ (a : List ℚ) (r : ℕ), r ≤ a.length →
      (∀ i, i < r → a.getD i 0 ≤ x) →
      (∀ i, r ≤ i → i < a.length → x < a.getD i 0) →
      a.countP (fun y => decide (y ≤ x)) = r := by
  intro a
  induction a with
  | nil =>
    intro r hr _ _
    simp at hr ⊢
    omega
  | cons y t ih =>
    intro r hr hpre hsuf
    cases r with
    | zero =>
      have hy : x < y := by simpa using hsuf 0 (le_refl 0) (by simp)
      have ht : t.countP (fun z => decide (z ≤ x)) = 0 := by
        apply ih 0 (Nat.zero_le _) (fun i hi => absurd hi (by omega))
        intro i _ hi
        simpa using hsuf (i + 1) (by omega) (by simpa using hi)
      rw [List.countP_cons]
      simp [ht, not_le.mpr hy]
    | succ r' =>
      have hy : y ≤ x := by simpa using hpre 0 (Nat.succ_pos r')
      have ht : t.countP (fun z => decide (z ≤ x)) = r' := by
        apply ih r' (by simpa using hr)
        · intro i hi
          simpa using hpre (i + 1) (by omega)
        · intro i hri hi
          simpa using hsuf (i + 1) (by omega) (by simpa using hi)
      rw [List.countP_cons]
      simp [ht, hy]

/-- On a sorted list, `bisect_right` returns the number of elements at
most `x`. -/
theorem bisectRight_eq_countP (a : List ℚ) (x : ℚ)
    (hs : a.Pairwise (· ≤ ·)) :
    bisectRight a x = a.countP (fun y => decide (y ≤ x)) := by
  have h := bisectRightAux_spec a x hs (a.length + 1) 0 a.length
    (by omega) (Nat.zero_le _) (le_refl _)
    (fun i hi => absurd hi (by omega))
    (fun i hi hlen => absurd (lt_of_le_of_lt hi hlen) (by omega))
  exact (countP_le_eq_of_boundary x a (bisectRight a x) h.2.1 h.2.2.1
    h.2.2.2).symm

/-- `countUpTo` is monotone in the query timestamp. -/
theorem countUpTo_mono (l : List PriceChange) {t t' : ℚ} (h : t ≤ t') :
    countUpTo l t ≤ countUpTo l t' := by
  apply List.countP_mono_left
  intro c _ hc
  simp only [decide_eq_true_eq] at hc ⊢
  exact le_trans hc h

/-- `countUpTo` never exceeds the number of deltas. -/
theorem countUpTo_le_length (l : List PriceChange) (t : ℚ) :
    countUpTo l t ≤ l.length :=
  List.countP_le_length _

/-- On deltas sorted by timestamp, the deltas with timestamp at most
`t` are an initial segment. -/
theorem filter_le_eq_take (t : ℚ) :
    ∀ (l : List PriceChange), l.Pairwise tsLE →
      l.filter (fun c => decide (c.timestamp ≤ t))
        = l.take (countUpTo l t) := by
  intro l
  induction l with
  | nil => simp [countUpTo]
  | cons c cs ih =>
    intro hp
    rw [List.pairwise_cons] at hp
    by_cases hc : c.timestamp ≤ t
    · rw [List.filter_cons]
      have hcnt : countUpTo (c :: cs) t = countUpTo cs t + 1 := by
        simp [countUpTo, List.countP_cons, hc]
      rw [hcnt]
      simp only [hc, decide_True, if_true, List.take_succ_cons]
      rw [ih hp.2]
    · have hcs : ∀ c' ∈ cs, ¬ (c'.timestamp ≤ t) := fun c' hc' hle =>
        hc (le_trans (hp.1 c' hc') hle)
      have h1 : cs.filter (fun c' => decide (c'.timestamp ≤ t)) = [] := by
        rw [List.filter_eq_nil_iff]
        intro c' h'
        simpa using hcs c' h'
      have hcnt : countUpTo (c :: cs) t = 0 := by
        simp only [countUpTo, List.countP_cons]
        rw [List.countP_eq_length_filter, h1]
        simp [hc]
      rw [List.filter_cons, hcnt]
      simp [hc, h1]

/-- `_apply_change` only touches the four level dicts. -/
theorem apply_change_preserves (st : OrderbookReconstructor)
    (c : PriceChange) :
    (apply_change st c).up_token_id = st.up_token_id
    ∧ (apply_change st c).down_token_id = st.down_token_id
    ∧ (apply_change st c).price_changes = st.price_changes
    ∧ (apply_change st c).change_timestamps = st.change_timestamps
    ∧ (apply_change st c).last_processed_idx = st.last_processed_idx := by
  unfold apply_change
  split_ifs <;> exact ⟨rfl, rfl, rfl, rfl, rfl⟩

/-- Folding `_apply_change` only touches the four level dicts. -/
theorem foldl_apply_change_preserves (l : List PriceChange) :
    ∀ st : OrderbookReconstructor,
      (l.foldl apply_change st).price_changes = st.price_changes
      ∧ (l.foldl apply_change st).change_timestamps = st.change_timestamps
      ∧ (l.foldl apply_change st).last_processed_idx
        = st.last_processed_idx := by
  induction l with
  | nil => exact fun st => ⟨rfl, rfl, rfl⟩
  | cons c cs ih =>
    intro st
    rw [List.foldl_cons]
    have h1 := ih (apply_change st c)
    have h2 := apply_change_preserves st c
    exact ⟨h1.1.trans h2.2.2.1, h1.2.1.trans h2.2.2.2.1,
      h1.2.2.trans h2.2.2.2.2⟩

/-- `_apply_change` commutes with overriding the cursor. -/
theorem apply_change_override (st : OrderbookReconstructor)
    (c : PriceChange) (v : ℤ) :
    apply_change { st with last_processed_idx := v } c
      = { apply_change st c with last_processed_idx := v } := by
  unfold apply_change
  dsimp only
  split_ifs <;> rfl

/-- The `_apply_change` fold commutes with overriding the cursor. -/
theorem foldl_apply_change_override (l : List PriceChange) :
    ∀ (st : OrderbookReconstructor) (v : ℤ),
      l.foldl apply_change { st with last_processed_idx := v }
        = { l.foldl apply_change st with last_processed_idx := v } := by
  induction l with
  | nil => intro st v; rfl
  | cons c cs ih =>
    intro st v
    rw [List.foldl_cons, List.foldl_cons, apply_change_override, ih]

/-- `_apply_change` is a function of the books view alone. -/
theorem apply_change_view (st st' : OrderbookReconstructor)
    (c : PriceChange) (h : booksView st = booksView st') :
    booksView (apply_change st c) = booksView (apply_change st' c) := by
  unfold booksView at h
  simp only [Prod.mk.injEq] at h
  obtain ⟨h1, h2, h3, h4, h5, h6⟩ := h
  unfold apply_change
  rw [h1, h2, h3, h4, h5, h6]
  split_ifs <;> simp [booksView, h1, h2, h3, h4, h5, h6]

/-- The `_apply_change` fold is a function of the books view alone. -/
theorem foldl_apply_change_view (l : List PriceChange) :
    ∀ (st st' : OrderbookReconstructor),
      booksView st = booksView st' →
      booksView (l.foldl apply_change st)
        = booksView (l.foldl apply_change st') := by
  induction l with
  | nil => exact fun st st' h => h
  | cons c cs ih =>
    intro st st' h
    rw [List.foldl_cons, List.foldl_cons]
    exact ih _ _ (apply_change_view st st' c h)

/-- One forward query advances the reconstructor from the fold of the
first `n` deltas to the fold of the first `countUpTo t` deltas: the
binary search finds the boundary, exactly the not yet applied deltas
with timestamp at most `t` are applied (each once), and the cursor
lands on the boundary. -/
theorem get_orderbook_at_step (st0 st : OrderbookReconstructor)
    (hts : st0.change_timestamps
      = st0.price_changes.map (fun c => c.timestamp))
    (hsort : st0.price_changes.Pairwise tsLE)
    (n : ℕ) (t : ℚ)
    (h1 : st.price_changes = st0.price_changes)
    (h2 : st.change_timestamps = st0.change_timestamps)
    (h3 : st.last_processed_idx = (n : ℤ) - 1)
    (h4 : booksView st
      = booksView ((st0.price_changes.take n).foldl apply_change st0))
    (hn : n ≤ countUpTo st0.price_changes t) :
    ((get_orderbook_at st t).2).price_changes = st0.price_changes
    ∧ ((get_orderbook_at st t).2).change_timestamps = st0.change_timestamps
    ∧ ((get_orderbook_at st t).2).last_processed_idx
      = (countUpTo st0.price_changes t : ℤ) - 1
    ∧ booksView ((get_orderbook_at st t).2)
      = booksView ((st0.price_changes.take
          (countUpTo st0.price_changes t)).foldl apply_change st0) := by
  by_cases hpc : st0.price_changes = []
  · have hc : countUpTo st0.price_changes t = 0 := by simp [countUpTo, hpc]
    have hn0 : n = 0 := by omega
    subst hn0
    unfold get_orderbook_at
    rw [if_pos (by simp [h2, hts, hpc])]
    rw [hc]
    exact ⟨h1, h2, h3, h4⟩
  · have hneTs : ¬ st0.change_timestamps.isEmpty = true := by
      simp only [hts, List.isEmpty_iff]
      simpa using hpc
    have hsQ : st0.change_timestamps.Pairwise (· ≤ ·) := by
      rw [hts]
      exact List.pairwise_map.mpr hsort
    have hbr : bisectRight st0.change_timestamps t
        = countUpTo st0.price_changes t := by
      rw [bisectRight_eq_countP _ _ hsQ, hts, List.countP_map]
      rfl
    unfold get_orderbook_at
    rw [if_neg (by rw [h2]; exact hneTs)]
    dsimp only
    rw [h1, h2, h3, hbr]
    have e1 : ((n : ℤ) - 1 + 1).toNat = n := by omega
    have e2 : ((countUpTo st0.price_changes t : ℤ) - 1 + 1
        - ((n : ℤ) - 1 + 1)).toNat = countUpTo st0.price_changes t - n := by
      omega
    rw [e1, e2]
    have hpres := foldl_apply_change_preserves
      ((st0.price_changes.drop n).take (countUpTo st0.price_changes t - n)) st
    refine ⟨hpres.1.trans h1, hpres.2.1.trans h2, ?_, ?_⟩
    · omega
    · have hview : booksView (((st0.price_changes.drop n).take
          (countUpTo st0.price_changes t - n)).foldl apply_change st)
          = booksView (((st0.price_changes.drop n).take
            (countUpTo st0.price_changes t - n)).foldl apply_change
            ((st0.price_changes.take n).foldl apply_change st0)) :=
        foldl_apply_change_view _ _ _ h4
      have e3 : st0.price_changes.take n ++ (st0.price_changes.drop n).take
          (countUpTo st0.price_changes t - n)
          = st0.price_changes.take (countUpTo st0.price_changes t) := by
        rw [← List.take_add]
        congr 1
        omega
      calc booksView _ = _ := hview
        _ = _ := by rw [← List.foldl_append, e3]

/-- Along a non-decreasing query list the reconstructor state after the
`i`-th query is the fold of exactly the deltas with timestamp at most
that query's timestamp, with the cursor at the boundary. -/
theorem queryStates_spec (st0 : OrderbookReconstructor)
    (hts : st0.change_timestamps
      = st0.price_changes.map (fun c => c.timestamp))
    (hsort : st0.price_changes.Pairwise tsLE) :
    ∀ (qs : List ℚ), qs.Pairwise (· ≤ ·) →
      ∀ (n : ℕ) (st : OrderbookReconstructor),
        st.price_changes = st0.price_changes →
        st.change_timestamps = st0.change_timestamps →
        st.last_processed_idx = (n : ℤ) - 1 →
        booksView st
          = booksView ((st0.price_changes.take n).foldl apply_change st0) →
        (∀ t' ∈ qs.head?, n ≤ countUpTo st0.price_changes t') →
        ∀ i, i < qs.length →
          ((queryStates st qs).getD i st0).last_processed_idx
            = (countUpTo st0.price_changes (qs.getD i 0) : ℤ) - 1
          ∧ booksView ((queryStates st qs).getD i st0)
            = booksView ((st0.price_changes.take
                (countUpTo st0.price_changes (qs.getD i 0))).foldl
                apply_change st0) := by
  intro qs
  induction qs with
  | nil => intro _ n st _ _ _ _ _ i hi; exact absurd hi (by simp)
  | cons t ts ih =>
    intro hp n st h1 h2 h3 h4 hb i hi
    obtain ⟨hhead, htail⟩ := List.pairwise_cons.mp hp
    have hstep := get_orderbook_at_step st0 st hts hsort n t h1 h2 h3 h4
      (hb t (by simp))
    cases i with
    | zero => exact ⟨hstep.2.2.1, hstep.2.2.2⟩
    | succ j =>
      have hj : j < ts.length := by simpa using hi
      have hnext : ∀ t' ∈ ts.head?, countUpTo st0.price_changes t
          ≤ countUpTo st0.price_changes t' := by
        intro t' ht'
        cases ts with
        | nil => simp at ht'
        | cons t'' _ =>
          simp at ht'
          subst ht'
          exact countUpTo_mono st0.price_changes (hhead t'' (by simp))
      exact ih htail (countUpTo st0.price_changes t)
        ((get_orderbook_at st t).2) hstep.1 hstep.2.1 hstep.2.2.1
        hstep.2.2.2 hnext j hj

/-- C3: forward-only exactly-once delta application.  For every
non-decreasing sequence of query timestamps, after the `i`-th query the
cursor sits just past the deltas with timestamp at most that query's
timestamp, and the internal level maps equal the initial state folded
(in timestamp order, each delta applied exactly once) with exactly
those deltas. -/
theorem reconstructor_forward_once (u d : String) (us ds : InitSnapshot)
    (changes : List PriceChange) (qs : List ℚ)
    (hqs : qs.Pairwise (· ≤ ·)) (i : ℕ) (hi : i < qs.length) :
    ((queryStates (from_raw_data u d us ds changes) qs).getD i
        (from_raw_data u d us ds changes)).last_processed_idx
      = ((deltasUpTo (from_raw_data u d us ds changes)
          (qs.getD i 0)).length : ℤ) - 1
    ∧ mapsQuad ((queryStates (from_raw_data u d us ds changes) qs).getD i
        (from_raw_data u d us ds changes))
      = mapsQuad ((deltasUpTo (from_raw_data u d us ds changes)
          (qs.getD i 0)).foldl apply_change
          (from_raw_data u d us ds changes)) := by
  have hsort : (from_raw_data u d us ds changes).price_changes.Pairwise
      tsLE := List.sorted_insertionSort tsLE changes
  have hts : (from_raw_data u d us ds changes).change_timestamps
      = (from_raw_data u d us ds changes).price_changes.map
        (fun c => c.timestamp) := rfl
  have h := queryStates_spec (from_raw_data u d us ds changes) hts hsort qs
    hqs 0 (from_raw_data u d us ds changes) rfl rfl
    (by simp [from_raw_data]) rfl (fun t' _ => Nat.zero_le _) i hi
  have hlen : (deltasUpTo (from_raw_data u d us ds changes)
      (qs.getD i 0)).length
      = countUpTo (from_raw_data u d us ds changes).price_changes
        (qs.getD i 0) := by
    unfold deltasUpTo countUpTo
    exact (List.countP_eq_length_filter _ _).symm
  have hfil := filter_le_eq_take (qs.getD i 0)
    (from_raw_data u d us ds changes).price_changes hsort
  constructor
  · rw [h.1, hlen]
  · have hmaps : mapsQuad ((queryStates (from_raw_data u d us ds changes)
        qs).getD i (from_raw_data u d us ds changes))
        = mapsQuad (((from_raw_data u d us ds changes).price_changes.take
          (countUpTo (from_raw_data u d us ds changes).price_changes
            (qs.getD i 0))).foldl apply_change
          (from_raw_data u d us ds changes)) :=
      congrArg (fun v => v.2.2) h.2
    rw [hmaps]
    unfold deltasUpTo
    rw [hfil]

/-- Witness for the forward-only reconstructor theorem: a single delta
and a single query after it. -/
theorem reconstructor_forward_once_witness :
    ((queryStates (from_raw_data "U" "D" emptySnap emptySnap [changeC])
        [2]).getD 0 (from_raw_data "U" "D" emptySnap emptySnap
        [changeC])).last_processed_idx
      = ((deltasUpTo (from_raw_data "U" "D" emptySnap emptySnap [changeC])
          (([2] : List ℚ).getD 0 0)).length : ℤ) - 1
    ∧ mapsQuad ((queryStates (from_raw_data "U" "D" emptySnap emptySnap
        [changeC]) [2]).getD 0
        (from_raw_data "U" "D" emptySnap emptySnap [changeC]))
      = mapsQuad ((deltasUpTo (from_raw_data "U" "D" emptySnap emptySnap
          [changeC]) (([2] : List ℚ).getD 0 0)).foldl apply_change
          (from_raw_data "U" "D" emptySnap emptySnap [changeC])) :=
  reconstructor_forward_once "U" "D" emptySnap emptySnap [changeC] [2]
    (by simp) 0 (by norm_num)

/-- Inserting a fresh key into a level dict appends it. -/
theorem dictInsert_not_mem (d : List (ℚ × ℚ)) (k v : ℚ)
    (h : ∀ e ∈ d, e.1 ≠ k) : dictInsert d k v = d ++ [(k, v)] := by
  unfold dictInsert
  rw [if_neg]
  simp only [List.any_eq_true, decide_eq_true_eq, not_exists]
  intro e he
  exact h e he.1 he.2

/-- Building a level dict from levels with pairwise-distinct prices
keeps them all, in order. -/
theorem buildLevelDict_aux :
    ∀ (levels : List OrderbookLevel) (d : List (ℚ × ℚ)),
      (levels.map (fun l => l.price)).Nodup →
      (∀ e ∈ d, ∀ l ∈ levels, e.1 ≠ l.price) →
      levels.foldl (fun d l => dictInsert d l.price l.size) d
        = d ++ levels.map (fun l => (l.price, l.size)) := by
  intro levels
  induction levels with
  | nil => intro d _ _; simp
  | cons l ls ih =>
    intro d hnd hdisj
    rw [List.foldl_cons,
      dictInsert_not_mem d l.price l.size
        (fun e he => hdisj e he l (by simp))]
    rw [List.map_cons, List.nodup_cons] at hnd
    rw [ih (d ++ [(l.price, l.size)]) hnd.2 ?_]
    · simp
    · intro e he l' hl'
      rcases List.mem_append.mp he with he | he
      · exact hdisj e he l' (by simp [hl'])
      · rcases List.mem_singleton.mp he with rfl
        intro hcon
        have hcon' : l.price = l'.price := hcon
        apply hnd.1
        rw [hcon']
        exact List.mem_map_of_mem (fun z => z.price) hl'

/-- Building a level dict from levels with pairwise-distinct prices
yields exactly their price/size pairs. -/
theorem buildLevelDict_eq (levels : List OrderbookLevel)
    (hnd : (levels.map (fun l => l.price)).Nodup) :
    buildLevelDict levels = levels.map (fun l => (l.price, l.size)) := by
  have h := buildLevelDict_aux levels [] hnd (by simp)
  simpa [buildLevelDict] using h

/-- Materializing a dict of positive-size levels reproduces the level
list. -/
theorem build_levels_round_trip (levels : List OrderbookLevel)
    (hnd : (levels.map (fun l => l.price)).Nodup)
    (hpos : ∀ l ∈ levels, 0 < l.size) :
    ((buildLevelDict levels).filter (fun e => 0 < e.2)).map
      (fun e => ({ price := e.1, size := e.2 } : OrderbookLevel))
      = levels := by
  rw [buildLevelDict_eq levels hnd]
  have hfil : (levels.map (fun l => (l.price, l.size))).filter
      (fun e => 0 < e.2) = levels.map (fun l => (l.price, l.size)) := by
    rw [List.filter_eq_self]
    intro e he
    rcases List.mem_map.mp he with ⟨l, hl, rfl⟩
    simpa using hpos l hl
  rw [hfil, List.map_map]
  have : ∀ ls : List OrderbookLevel,
      ls.map ((fun e => ({ price := e.1, size := e.2 } : OrderbookLevel))
        ∘ (fun l => (l.price, l.size))) = ls := by
    intro ls
    induction ls with
    | nil => rfl
    | cons a as iha => simp [iha]
  exact this levels

/-- The snapshot returned by a query is always the one built from the
post-query state. -/
theorem get_orderbook_at_fst (st : OrderbookReconstructor) (t : ℚ) :
    (get_orderbook_at st t).1
      = build_snapshot ((get_orderbook_at st t).2) t := by
  unfold get_orderbook_at
  by_cases hemp : st.change_timestamps.isEmpty = true
  · rw [if_pos hemp]
  · rw [if_neg hemp]

/-- `_build_snapshot` is a function of the books view alone. -/
theorem build_snapshot_view (st st' : OrderbookReconstructor) (t : ℚ)
    (h : booksView st = booksView st') :
    build_snapshot st t = build_snapshot st' t := by
  unfold booksView at h
  simp only [Prod.mk.injEq] at h
  obtain ⟨_, _, h3, h4, h5, h6⟩ := h
  unfold build_snapshot
  rw [h3, h4, h5, h6]

/-- C8 (amended): querying a fresh reconstructor at its initial
timestamp, with every delta strictly later, returns the initial
snapshot's levels exactly — provided each book's levels carry
pairwise-distinct prices and strictly positive sizes (the dict build
collapses duplicate prices and `_build_snapshot` drops non-positive
sizes, so the unquantified claim fails; see the counterexample). -/
theorem round_trip_amended (u d : String) (us ds : InitSnapshot)
    (changes : List PriceChange)
    (hafter : ∀ c ∈ changes,
      (from_raw_data u d us ds changes).initial_timestamp < c.timestamp)
    (hnd1 : (us.bids.map (fun l => l.price)).Nodup)
    (hnd2 : (us.asks.map (fun l => l.price)).Nodup)
    (hnd3 : (ds.bids.map (fun l => l.price)).Nodup)
    (hnd4 : (ds.asks.map (fun l => l.price)).Nodup)
    (hp1 : ∀ l ∈ us.bids, 0 < l.size) (hp2 : ∀ l ∈ us.asks, 0 < l.size)
    (hp3 : ∀ l ∈ ds.bids, 0 < l.size) (hp4 : ∀ l ∈ ds.asks, 0 < l.size) :
    (roundTripResult u d us ds changes).up.bids = us.bids
    ∧ (roundTripResult u d us ds changes).up.asks = us.asks
    ∧ (roundTripResult u d us ds changes).down.bids = ds.bids
    ∧ (roundTripResult u d us ds changes).down.asks = ds.asks := by
  have hsort : (from_raw_data u d us ds changes).price_changes.Pairwise
      tsLE := List.sorted_insertionSort tsLE changes
  have hcnt : countUpTo (from_raw_data u d us ds changes).price_changes
      (from_raw_data u d us ds changes).initial_timestamp = 0 := by
    apply List.countP_eq_zero.mpr
    intro c hc
    have hmem : c ∈ changes :=
      (List.Perm.mem_iff (List.perm_insertionSort tsLE changes)).mp hc
    simpa using not_le.mpr (hafter c hmem)
  have hstep := get_orderbook_at_step (from_raw_data u d us ds changes)
    (from_raw_data u d us ds changes) rfl hsort 0
    (from_raw_data u d us ds changes).initial_timestamp rfl rfl
    (by simp [from_raw_data]) rfl (by omega)
  have hview : booksView ((get_orderbook_at (from_raw_data u d us ds changes)
      (from_raw_data u d us ds changes).initial_timestamp).2)
      = booksView (from_raw_data u d us ds changes) := by
    have h := hstep.2.2.2
    rw [hcnt] at h
    simpa using h
  have hsnap : roundTripResult u d us ds changes
      = build_snapshot (from_raw_data u d us ds changes)
        (from_raw_data u d us ds changes).initial_timestamp := by
    unfold roundTripResult
    rw [get_orderbook_at_fst]
    exact build_snapshot_view _ _ _ hview
  rw [hsnap]
  exact ⟨build_levels_round_trip us.bids hnd1 hp1,
    build_levels_round_trip us.asks hnd2 hp2,
    build_levels_round_trip ds.bids hnd3 hp3,
    build_levels_round_trip ds.asks hnd4 hp4⟩

/-- C8 counterexample: for an initial snapshot holding a zero-size bid
level, the round-trip read drops the level (`_build_snapshot` keeps
only sizes `> 0`), so the reconstructed book does not equal the initial
snapshot exactly. -/
theorem round_trip_counterexample :
    (roundTripResult "U" "D"
        { timestamp := 0, bids := [{ price := 1 / 2, size := 0 }]
        , asks := [] } emptySnap []).up.bids = []
    ∧ (roundTripResult "U" "D"
        { timestamp := 0, bids := [{ price := 1 / 2, size := 0 }]
        , asks := [] } emptySnap []).up.bids
      ≠ [{ price := 1 / 2, size := 0 }] := by
  have h : (roundTripResult "U" "D"
      { timestamp := 0, bids := [{ price := 1 / 2, size := 0 }]
      , asks := [] } emptySnap []).up.bids = [] := by
    norm_num [roundTripResult, from_raw_data, get_orderbook_at,
      build_snapshot, buildLevelDict, dictInsert, emptySnap,
      List.insertionSort]
  refine ⟨h, ?_⟩
  rw [h]
  simp

/-- Witness for the amended round-trip theorem at a concrete
positive-size snapshot. -/
theorem round_trip_amended_witness :
    (roundTripResult "U" "D"
        { timestamp := 0, bids := [{ price := 1 / 2, size := 10 }]
        , asks := [{ price := 6 / 10, size := 5 }] } emptySnap []).up.bids
      = [{ price := 1 / 2, size := 10 }]
    ∧ (roundTripResult "U" "D"
        { timestamp := 0, bids := [{ price := 1 / 2, size := 10 }]
        , asks := [{ price := 6 / 10, size := 5 }] } emptySnap []).up.asks
      = [{ price := 6 / 10, size := 5 }]
    ∧ (roundTripResult "U" "D"
        { timestamp := 0, bids := [{ price := 1 / 2, size := 10 }]
        , asks := [{ price := 6 / 10, size := 5 }] } emptySnap []).down.bids
      = emptySnap.bids
    ∧ (roundTripResult "U" "D"
        { timestamp := 0, bids := [{ price := 1 / 2, size := 10 }]
        , asks := [{ price := 6 / 10, size := 5 }] } emptySnap []).down.asks
      = emptySnap.asks :=
  round_trip_amended "U" "D"
    { timestamp := 0, bids := [{ price := 1 / 2, size := 10 }]
    , asks := [{ price := 6 / 10, size := 5 }] } emptySnap []
    (by simp) (by simp) (by simp) (by simp [emptySnap]) (by simp [emptySnap])
    (by intro l hl; rcases List.mem_singleton.mp hl with rfl; norm_num)
    (by intro l hl; rcases List.mem_singleton.mp hl with rfl; norm_num)
    (by simp [emptySnap]) (by simp [emptySnap])
